import Mathlib

/-!
Verification of the `compress` C extension (src/csrc/compress.c).

The engine is a sliding-window byte compressor.  We embed it shallowly:
the input buffer `source` (a `const char*` of byte values) is a total
function `Nat → Nat` together with its length `lenSource`; the two
`0x10000`-byte scratch output arrays (left uninitialized by the C code)
are likewise functions `Nat → Nat`, passed in as arbitrary initial
buffers; array stores become pointwise functional updates.  All C `int`
variables stay nonnegative on every reachable state, so `Nat` models
them exactly; `%` and `/` on nonnegative ints coincide with `Nat.mod`
and `Nat.div`, and the bitwise ops coincide with `Nat.lor`, `Nat.land`,
`Nat.xor` and the shifts.

Loops are translated to structurally recursive functions.  The two
`for` loops of the match finder and the `for` loop over the 8 header
bits recurse on an explicit iteration budget that mirrors the loop
bound of the C code; the outer `while (!done)` loop recurses on a fuel
that the top-level entry point instantiates with `lenSource + 2`, which
always suffices: every iteration that neither aborts nor terminates
encodes 8 elements, each advancing `src_pos` by at least 1, and
`src_pos` never exceeds `lenSource`.
-/

/-- Pointwise store into a buffer modelled as a function, the shallow
embedding of the C array assignment `buf[i] = v`. -/
def upd (f : Nat → Nat) (i v : Nat) : Nat → Nat :=
  fun j => if j = i then v else f j

/-- Line 50 of compress.c: `lookback_range = 0x07FF | (i << 11)`. -/
def lookbackRange (i : Nat) : Nat := 0x07FF ||| (i <<< 11)

/-- The shift amount `16-(5-i)` used at lines 53 and 164 of compress.c. -/
def lengthShift (i : Nat) : Nat := 16 - (5 - i)

/-- Lines 53-54: `max_copy_length = ((0xFFFF ^ lookback_range) >> (16-(5-i))) + 3`. -/
def maxCopyLength (i : Nat) : Nat :=
  ((0xFFFF ^^^ lookbackRange i) >>> lengthShift i) + 3

/-- The terminator marker byte `0xC0*(1-i)` of lines 83, 102 and 111. -/
def tagByte (i : Nat) : Nat := 0xC0 * (1 - i)

/-- Lines 134-138 of compress.c, the match-extension `while` loop:
starting from the running length `curLen`, keep extending while
`src_pos + cur_len < len_source && cur_len < max_copy_length &&
source[start+cur_len] == source[src_pos+cur_len]`.  The structural
budget starts at `maxCopyLength + 1`, strictly more than the number of
iterations the conjunct `cur_len < max_copy_length` permits, so the
budget never runs out before the loop condition fails. -/
def matchLenFrom (source : Nat → Nat) (lenSource maxCopy srcPos start : Nat) :
    Nat → Nat → Nat
  | 0, curLen => curLen
  | budget + 1, curLen =>
    if srcPos + curLen < lenSource ∧ curLen < maxCopy ∧
        source (start + curLen) = source (srcPos + curLen) then
      matchLenFrom source lenSource maxCopy srcPos start budget (curLen + 1)
    else
      curLen

/-- The value of `cur_len` computed at lines 132-138 for one candidate
`start` position. -/
def matchLen (source : Nat → Nat) (lenSource maxCopy srcPos start : Nat) : Nat :=
  matchLenFrom source lenSource maxCopy srcPos start (maxCopy + 1) 0

/-- Lines 131-148 of compress.c: scan `start` from `lookback_st` up to
`lookback_end - 1`, tracking `(best_len, best_len_st)`; on
`cur_len >= best_len` take the new candidate, and break out as soon as
`cur_len == max_copy_length`.  `remaining` counts the starts still to
scan, so the call at `findMatch` covers exactly
`start = lookback_st, ..., lookback_end - 1`. -/
def scanStarts (source : Nat → Nat) (lenSource maxCopy srcPos : Nat) :
    Nat → Nat → Nat → Nat → Nat × Nat
  | _start, 0, bestLen, bestLenSt => (bestLen, bestLenSt)
  | start, remaining + 1, bestLen, bestLenSt =>
    let curLen := matchLen source lenSource maxCopy srcPos start
    if bestLen ≤ curLen then
      if curLen = maxCopy then
        (curLen, start)
      else
        scanStarts source lenSource maxCopy srcPos (start + 1) remaining curLen start
    else
      scanStarts source lenSource maxCopy srcPos (start + 1) remaining bestLen bestLenSt

/-- The whole match finder, lines 124-148: `lookback_st` is
`max(src_pos - lookback_range, 0)` (the C guards the subtraction with
`(src_pos - lookback_range) > 0`), `lookback_end` is `src_pos`, and the
scan returns the final `(best_len, best_len_st)`. -/
def findMatch (source : Nat → Nat) (lenSource i srcPos : Nat) : Nat × Nat :=
  let lookbackSt :=
    if lookbackRange i < srcPos then srcPos - lookbackRange i else 0
  let lookbackEnd := srcPos
  scanStarts source lenSource (maxCopyLength i) srcPos
    lookbackSt (lookbackEnd - lookbackSt) 0 0

/-- Lines 96-99 of compress.c: the downward `for (j = addendum_size-1;
j >= 0; j--)` loop copying `buf[header_pos+j]` to `buf[header_pos+3+j]`.
The argument counts the iterations still to run, so
`shiftAddendum hp n buf` performs the C iterations `j = n-1, ..., 0`
in that order, each reading the buffer as left by the previous ones. -/
def shiftAddendum (headerPos : Nat) : Nat → (Nat → Nat) → Nat → Nat
  | 0, buf => buf
  | j + 1, buf =>
    shiftAddendum headerPos j (upd buf (headerPos + 3 + j) (buf (headerPos + j)))

/-- The per-trial mutable state: the output array `compressed_data[i]`,
and the cursors `src_pos` and `out_pos`. -/
structure EncSt where
  buf : Nat → Nat
  srcPos : Nat
  outPos : Nat

/-- Lines 79-121 of compress.c, the `src_pos == len_source` block that
finishes a trial: for `bit == 0` overwrite the just-started header with
the tag byte and record length `header_pos + 1`; otherwise build the
addendum (mask the unused header bits, shift the partial packet down
three bytes, write the addendum header, the two-byte total-length
marker and the trailing tag byte) and record length `out_pos + 4`.
In both cases finally store `header_pos - 2` little-endian into bytes
0 and 1.  Returns the final state and the recorded
`compressed_lengths[i]`. -/
def finishTrial (i headerPos bit : Nat) (st : EncSt) : EncSt × Nat :=
  if bit = 0 then
    let buf := upd st.buf headerPos (tagByte i)
    let buf := upd buf 0 ((headerPos - 2) % 0x100)
    let buf := upd buf 1 ((headerPos - 2) / 0x100)
    (⟨buf, st.srcPos, st.outPos⟩, headerPos + 1)
  else
    let mask := Nat.land (0xFF <<< bit) 0xFF
    let buf := upd st.buf headerPos (Nat.lor (st.buf headerPos) mask)
    let addendumSize := st.outPos - headerPos
    let buf := shiftAddendum headerPos addendumSize buf
    let buf := upd buf headerPos (Nat.lor (tagByte i) bit)
    let buf := upd buf (headerPos + 1) ((st.outPos + 3) % 0x100)
    let buf := upd buf (headerPos + 2) ((st.outPos + 3) / 0x100)
    let buf := upd buf (st.outPos + 3) (tagByte i)
    let buf := upd buf 0 ((headerPos - 2) % 0x100)
    let buf := upd buf 1 ((headerPos - 2) / 0x100)
    (⟨buf, st.srcPos, st.outPos⟩, st.outPos + 4)

/-- Outcome of the `for (bit = 0; bit < 8; bit++)` loop: either all 8
bits were encoded and the outer `while` continues with the new state,
or the trial finished (clean boundary or addendum) with a final state
and recorded length. -/
inductive PacketOut where
  | again (st : EncSt) : PacketOut
  | fin (st : EncSt) (len : Nat) : PacketOut

/-- The state buffer carried by either outcome of the bit loop. -/
def bufOf : PacketOut → (Nat → Nat)
  | .again st => st.buf
  | .fin st _ => st.buf

/-- Lines 76-180 of compress.c, the loop over the 8 header bits.
`budget` counts the bits still to process (the loop is entered with
`bit = 0`, `budget = 8`).  Each iteration first checks
`src_pos == len_source` and finishes the trial if so; otherwise it runs
the match finder and encodes either a match element (when
`best_len > 2`: set header bit, write the packed stream little-endian,
advance `out_pos` by 2 and `src_pos` by `best_len`) or a literal
element (copy the source byte, advance both cursors by 1). -/
def runBits (source : Nat → Nat) (lenSource i headerPos : Nat) :
    Nat → Nat → EncSt → PacketOut
  | _bit, 0, st => .again st
  | bit, budget + 1, st =>
    if st.srcPos = lenSource then
      let r := finishTrial i headerPos bit st
      .fin r.1 r.2
    else
      let fm := findMatch source lenSource i st.srcPos
      if 2 < fm.1 then
        let buf := upd st.buf headerPos (Nat.lor (st.buf headerPos) (1 <<< bit))
        let lookback := st.srcPos - fm.2
        let comprStream := Nat.lor lookback ((fm.1 - 3) <<< lengthShift i)
        let buf := upd buf st.outPos (comprStream % 0x100)
        let buf := upd buf (st.outPos + 1) (comprStream / 0x100)
        runBits source lenSource i headerPos (bit + 1) budget
          ⟨buf, st.srcPos + fm.1, st.outPos + 2⟩
      else
        let buf := upd st.buf st.outPos (source st.srcPos)
        runBits source lenSource i headerPos (bit + 1) budget
          ⟨buf, st.srcPos + 1, st.outPos + 1⟩

/-- Lines 63-181 of compress.c, the outer `while (!done)` loop of one
trial.  At the top of each iteration the abort check `out_pos >=
best_size` runs; a trial that aborts (or exhausts the fuel, which never
happens for the fuel chosen by `runTrial`) leaves the recorded length
at the sentinel `0x10000` that `compressed_lengths` was initialized to
at line 36.  Otherwise a fresh packet starts: the header byte is
zeroed, `out_pos` advances past it, and the 8-bit element loop runs. -/
def runPackets (source : Nat → Nat) (lenSource i bestSize : Nat) :
    Nat → EncSt → EncSt × Nat
  | 0, st => (st, 0x10000)
  | fuel + 1, st =>
    if bestSize ≤ st.outPos then
      (st, 0x10000)
    else
      let headerPos := st.outPos
      let st1 : EncSt := ⟨upd st.buf headerPos 0, st.srcPos, st.outPos + 1⟩
      match runBits source lenSource i headerPos 0 8 st1 with
      | .again st2 => runPackets source lenSource i bestSize fuel st2
      | .fin st2 len => (st2, len)

/-- One full trial of configuration `i` with output bound `bestSize`,
starting from an arbitrary initial (uninitialized) buffer: `src_pos`
starts at 0 and `out_pos` at 2, skipping the two main-body-length
bytes (lines 55-61). -/
def runTrial (source : Nat → Nat) (lenSource i bestSize : Nat)
    (buf0 : Nat → Nat) : EncSt × Nat :=
  runPackets source lenSource i bestSize (lenSource + 2) ⟨buf0, 0, 2⟩

/-- The data the tail of `compress` (lines 183-199) works with: the
selected buffer, the selected `compressed_lengths[ret_choice]`, and
`ret_choice` itself. -/
structure CompressResult where
  buf : Nat → Nat
  length : Nat
  choice : Nat

/-- Lines 47-199 of compress.c: run trial 0 with `best_size = 0x1000`;
update `best_size` to `compressed_lengths[0]` when that is smaller
(line 183); run trial 1 with the updated bound; then select choice 0
iff `compressed_lengths[0] <= compressed_lengths[1]` (lines 188-193).
`buf0` and `buf1` are the two rows of the uninitialized
`compressed_data` array. -/
def compressRun (source : Nat → Nat) (lenSource : Nat)
    (buf0 buf1 : Nat → Nat) : CompressResult :=
  let r0 := runTrial source lenSource 0 0x1000 buf0
  let bestSize1 := if r0.2 < 0x1000 then r0.2 else 0x1000
  let r1 := runTrial source lenSource 1 bestSize1 buf1
  if r0.2 ≤ r1.2 then
    ⟨r0.1.buf, r0.2, 0⟩
  else
    ⟨r1.1.buf, r1.2, 1⟩

/-- The bytes `compress` returns: `compressed_lengths[ret_choice]`
bytes from the start of the selected buffer (lines 195-197). -/
def compress (source : Nat → Nat) (lenSource : Nat)
    (buf0 buf1 : Nat → Nat) : List Nat :=
  let r := compressRun source lenSource buf0 buf1
  (List.range r.length).map r.buf

/-- Modelled from the spec: the variant of section 4.3 that claim C4
compares the code against, in which both trials use the fixed bound
`0x1000` and no tightening happens between them.  The selection rule is
unchanged. -/
def compressRunFixedBound (source : Nat → Nat) (lenSource : Nat)
    (buf0 buf1 : Nat → Nat) : CompressResult :=
  let r0 := runTrial source lenSource 0 0x1000 buf0
  let r1 := runTrial source lenSource 1 0x1000 buf1
  if r0.2 ≤ r1.2 then
    ⟨r0.1.buf, r0.2, 0⟩
  else
    ⟨r1.1.buf, r1.2, 1⟩

/-- Modelled from the spec: the bytes the fixed-bound variant returns. -/
def compressFixedBound (source : Nat → Nat) (lenSource : Nat)
    (buf0 buf1 : Nat → Nat) : List Nat :=
  let r := compressRunFixedBound source lenSource buf0 buf1
  (List.range r.length).map r.buf

/-- The all-zero byte source used by concrete test inputs. -/
def zeroSource : Nat → Nat := fun _ => 0

/-- A zero-initialized scratch buffer standing in for one row of the
uninitialized `compressed_data` array in concrete evaluations. -/
def zbuf : Nat → Nat := fun _ => 0

/-- The one-byte input of scenario B in the spec, a single byte 0x41. -/
def one41 : Nat → Nat := fun k => if k = 0 then 0x41 else 0

/-- Outcome of the bit loop with the buffer dropped: only the cursors
or the recorded length.  This and the next three definitions are
evaluation aids for large concrete inputs; `runBitsLen_spec` and
`runPacketsLen_spec` prove them equal to the faithful embedding, whose
control flow never depends on the buffer contents. -/
inductive BitsLenOut where
  | again (srcPos outPos : Nat) : BitsLenOut
  | fin (len : Nat) : BitsLenOut

/-- The bit loop of `runBits` with the buffer writes dropped; returns
the same cursor movements and the same recorded length. -/
def runBitsLen (source : Nat → Nat) (lenSource i headerPos : Nat) :
    Nat → Nat → Nat → Nat → BitsLenOut
  | _bit, 0, srcPos, outPos => .again srcPos outPos
  | bit, budget + 1, srcPos, outPos =>
    if srcPos = lenSource then
      if bit = 0 then .fin (headerPos + 1) else .fin (outPos + 4)
    else
      let fm := findMatch source lenSource i srcPos
      if 2 < fm.1 then
        runBitsLen source lenSource i headerPos (bit + 1) budget (srcPos + fm.1) (outPos + 2)
      else
        runBitsLen source lenSource i headerPos (bit + 1) budget (srcPos + 1) (outPos + 1)

/-- The packet loop of `runPackets` with the buffer dropped; computes
the recorded `compressed_lengths` value of a trial. -/
def runPacketsLen (source : Nat → Nat) (lenSource i bestSize : Nat) :
    Nat → Nat → Nat → Nat
  | 0, _srcPos, _outPos => 0x10000
  | fuel + 1, srcPos, outPos =>
    if bestSize ≤ outPos then 0x10000
    else
      match runBitsLen source lenSource i outPos 0 8 srcPos (outPos + 1) with
      | .again s2 o2 => runPacketsLen source lenSource i bestSize fuel s2 o2
      | .fin len => len

/-- A single packet iteration of the buffer-free loop as a step
function on `(src_pos, out_pos)` pairs (left) or a finished recorded
length (right), so that long runs can be evaluated a few packets at a
time through `Nat.iterate`. -/
def packetStep (source : Nat → Nat) (lenSource i bestSize : Nat) :
    (Nat × Nat) ⊕ Nat → (Nat × Nat) ⊕ Nat
  | .inl so =>
    if bestSize ≤ so.2 then .inr 0x10000
    else
      match runBitsLen source lenSource i so.2 0 8 so.1 (so.2 + 1) with
      | .again s2 o2 => .inl (s2, o2)
      | .fin len => .inr len
  | .inr L => .inr L

theorem upd_same (f : Nat → Nat) (i v : Nat) : upd f i v i = v := by
  simp [upd]

theorem upd_ne (f : Nat → Nat) (i v j : Nat) (h : j ≠ i) : upd f i v j = f j := by
  simp [upd, h]

theorem matchLenFrom_le (source : Nat → Nat) (lenSource maxCopy srcPos start : Nat) :
    ∀ budget curLen, curLen ≤ maxCopy →
      matchLenFrom source lenSource maxCopy srcPos start budget curLen ≤ maxCopy := by
  intro budget
  induction budget with
  | zero => intro c hc; simpa [matchLenFrom] using hc
  | succ n ih =>
    intro c hc
    simp only [matchLenFrom]
    split
    · next h => exact ih (c + 1) h.2.1
    · exact hc

theorem matchLen_le (source : Nat → Nat) (lenSource maxCopy srcPos start : Nat) :
    matchLen source lenSource maxCopy srcPos start ≤ maxCopy :=
  matchLenFrom_le source lenSource maxCopy srcPos start (maxCopy + 1) 0 (Nat.zero_le _)

section ScanLemmas

variable (source : Nat → Nat) (lenSource maxCopy srcPos : Nat)

theorem scan_fst_ge :
    ∀ rem start bl bs, bl ≤ (scanStarts source lenSource maxCopy srcPos start rem bl bs).1 := by
  intro rem
  induction rem with
  | zero => intro start bl bs; simp [scanStarts]
  | succ n ih =>
    intro start bl bs
    simp only [scanStarts]
    split
    · next hbc =>
      split
      · exact hbc
      · exact le_trans hbc (ih (start + 1) _ _)
    · exact ih (start + 1) bl bs

theorem scan_fst_le :
    ∀ rem start bl bs, bl ≤ maxCopy →
      (scanStarts source lenSource maxCopy srcPos start rem bl bs).1 ≤ maxCopy := by
  intro rem
  induction rem with
  | zero => intro start bl bs h; simpa [scanStarts] using h
  | succ n ih =>
    intro start bl bs h
    simp only [scanStarts]
    split
    · split
      · next hcm => exact le_of_eq hcm
      · exact ih (start + 1) _ _ (matchLen_le source lenSource maxCopy srcPos start)
    · exact ih (start + 1) bl bs h

theorem scan_fst_max :
    ∀ rem start bl bs k, k < rem →
      matchLen source lenSource maxCopy srcPos (start + k) ≤
        (scanStarts source lenSource maxCopy srcPos start rem bl bs).1 := by
  intro rem
  induction rem with
  | zero => intro start bl bs k hk; omega
  | succ n ih =>
    intro start bl bs k hk
    simp only [scanStarts]
    rcases Nat.eq_zero_or_pos k with hk0 | hkpos
    · subst hk0
      simp only [Nat.add_zero]
      split
      · next hbc =>
        split
        · exact le_refl _
        · exact scan_fst_ge source lenSource maxCopy srcPos n (start + 1) _ _
      · next hbc =>
        exact le_trans (le_of_lt (lt_of_not_le hbc))
          (scan_fst_ge source lenSource maxCopy srcPos n (start + 1) bl bs)
    · obtain ⟨k', rfl⟩ : ∃ k', k = k' + 1 := ⟨k - 1, by omega⟩
      have hrw : start + (k' + 1) = (start + 1) + k' := by omega
      rw [hrw]
      split
      · split
        · next hcm =>
          show matchLen source lenSource maxCopy srcPos (start + 1 + k') ≤
            matchLen source lenSource maxCopy srcPos start
          rw [hcm]
          exact matchLen_le source lenSource maxCopy srcPos _
        · exact ih (start + 1) _ _ k' (by omega)
      · exact ih (start + 1) bl bs k' (by omega)

end ScanLemmas

section ScanLemmas2

variable (source : Nat → Nat) (lenSource maxCopy srcPos : Nat)

theorem scan_result_cases :
    ∀ rem start bl bs,
      scanStarts source lenSource maxCopy srcPos start rem bl bs = (bl, bs) ∨
      (start ≤ (scanStarts source lenSource maxCopy srcPos start rem bl bs).2 ∧
       (scanStarts source lenSource maxCopy srcPos start rem bl bs).2 < start + rem ∧
       matchLen source lenSource maxCopy srcPos
         (scanStarts source lenSource maxCopy srcPos start rem bl bs).2 =
       (scanStarts source lenSource maxCopy srcPos start rem bl bs).1) := by
  intro rem
  induction rem with
  | zero => intro start bl bs; left; simp [scanStarts]
  | succ n ih =>
    intro start bl bs
    by_cases hbc : bl ≤ matchLen source lenSource maxCopy srcPos start
    · by_cases hcm : matchLen source lenSource maxCopy srcPos start = maxCopy
      · right
        simp only [scanStarts]
        rw [if_pos hbc, if_pos hcm]
        exact ⟨le_refl _, by omega, rfl⟩
      · rcases ih (start + 1) (matchLen source lenSource maxCopy srcPos start) start with
          heq | ⟨h1, h2, h3⟩
        · right
          simp only [scanStarts]
          rw [if_pos hbc, if_neg hcm, heq]
          exact ⟨le_refl _, by omega, rfl⟩
        · right
          simp only [scanStarts]
          rw [if_pos hbc, if_neg hcm]
          exact ⟨by omega, by omega, h3⟩
    · rcases ih (start + 1) bl bs with heq | ⟨h1, h2, h3⟩
      · left
        simp only [scanStarts]
        rw [if_neg hbc, heq]
      · right
        simp only [scanStarts]
        rw [if_neg hbc]
        exact ⟨by omega, by omega, h3⟩

theorem scan_tie_largest :
    ∀ rem start bl bs,
      (scanStarts source lenSource maxCopy srcPos start rem bl bs).1 < maxCopy →
      ∀ k, k < rem →
        matchLen source lenSource maxCopy srcPos (start + k) =
          (scanStarts source lenSource maxCopy srcPos start rem bl bs).1 →
        start + k ≤ (scanStarts source lenSource maxCopy srcPos start rem bl bs).2 := by
  intro rem
  induction rem with
  | zero => intro start bl bs hlt k hk; omega
  | succ n ih =>
    intro start bl bs hlt k hk htie
    by_cases hbc : bl ≤ matchLen source lenSource maxCopy srcPos start
    · by_cases hcm : matchLen source lenSource maxCopy srcPos start = maxCopy
      · exfalso
        simp only [scanStarts] at hlt
        rw [if_pos hbc, if_pos hcm] at hlt
        exact absurd hlt (by simp [hcm])
      · simp only [scanStarts] at hlt htie ⊢
        rw [if_pos hbc, if_neg hcm] at hlt htie ⊢
        rcases Nat.eq_zero_or_pos k with hk0 | hkpos
        · subst hk0
          simp only [Nat.add_zero] at htie
          rcases scan_result_cases source lenSource maxCopy srcPos n (start + 1)
              (matchLen source lenSource maxCopy srcPos start) start with heq | ⟨h1, h2, h3⟩
          · rw [heq]; simp
          · omega
        · obtain ⟨k', rfl⟩ : ∃ k', k = k' + 1 := ⟨k - 1, by omega⟩
          have hrw : start + (k' + 1) = (start + 1) + k' := by omega
          rw [hrw] at htie ⊢
          exact ih (start + 1) _ _ hlt k' (by omega) htie
    · simp only [scanStarts] at hlt htie ⊢
      rw [if_neg hbc] at hlt htie ⊢
      rcases Nat.eq_zero_or_pos k with hk0 | hkpos
      · exfalso
        subst hk0
        simp only [Nat.add_zero] at htie
        have hge := scan_fst_ge source lenSource maxCopy srcPos n (start + 1) bl bs
        omega
      · obtain ⟨k', rfl⟩ : ∃ k', k = k' + 1 := ⟨k - 1, by omega⟩
        have hrw : start + (k' + 1) = (start + 1) + k' := by omega
        rw [hrw] at htie ⊢
        exact ih (start + 1) bl bs hlt k' (by omega) htie

theorem scan_break_smallest :
    ∀ rem start bl bs, bl < maxCopy →
      (scanStarts source lenSource maxCopy srcPos start rem bl bs).1 = maxCopy →
      matchLen source lenSource maxCopy srcPos
          (scanStarts source lenSource maxCopy srcPos start rem bl bs).2 = maxCopy ∧
      ∀ k, k < rem →
        matchLen source lenSource maxCopy srcPos (start + k) = maxCopy →
        (scanStarts source lenSource maxCopy srcPos start rem bl bs).2 ≤ start + k := by
  intro rem
  induction rem with
  | zero =>
    intro start bl bs hbl hfst
    simp only [scanStarts] at hfst
    omega
  | succ n ih =>
    intro start bl bs hbl hfst
    by_cases hbc : bl ≤ matchLen source lenSource maxCopy srcPos start
    · by_cases hcm : matchLen source lenSource maxCopy srcPos start = maxCopy
      · simp only [scanStarts]
        rw [if_pos hbc, if_pos hcm]
        exact ⟨hcm, fun k _ _ => by omega⟩
      · have hc_lt : matchLen source lenSource maxCopy srcPos start < maxCopy := by
          have := matchLen_le source lenSource maxCopy srcPos start
          omega
        simp only [scanStarts] at hfst ⊢
        rw [if_pos hbc, if_neg hcm] at hfst ⊢
        obtain ⟨hach, hmin⟩ := ih (start + 1) (matchLen source lenSource maxCopy srcPos start)
          start hc_lt hfst
        refine ⟨hach, fun k hk htk => ?_⟩
        rcases Nat.eq_zero_or_pos k with hk0 | hkpos
        · exfalso; subst hk0; simp only [Nat.add_zero] at htk; exact hcm htk
        · obtain ⟨k', rfl⟩ : ∃ k', k = k' + 1 := ⟨k - 1, by omega⟩
          have hrw : start + (k' + 1) = (start + 1) + k' := by omega
          rw [hrw] at htk ⊢
          exact hmin k' (by omega) htk
    · simp only [scanStarts] at hfst ⊢
      rw [if_neg hbc] at hfst ⊢
      obtain ⟨hach, hmin⟩ := ih (start + 1) bl bs hbl hfst
      refine ⟨hach, fun k hk htk => ?_⟩
      rcases Nat.eq_zero_or_pos k with hk0 | hkpos
      · exfalso
        subst hk0
        simp only [Nat.add_zero] at htk
        omega
      · obtain ⟨k', rfl⟩ : ∃ k', k = k' + 1 := ⟨k - 1, by omega⟩
        have hrw : start + (k' + 1) = (start + 1) + k' := by omega
        rw [hrw] at htk ⊢
        exact hmin k' (by omega) htk

theorem scan_zero_achieves :
    ∀ rem start bs, 0 < rem →
      start ≤ (scanStarts source lenSource maxCopy srcPos start rem 0 bs).2 ∧
      (scanStarts source lenSource maxCopy srcPos start rem 0 bs).2 < start + rem ∧
      matchLen source lenSource maxCopy srcPos
        (scanStarts source lenSource maxCopy srcPos start rem 0 bs).2 =
      (scanStarts source lenSource maxCopy srcPos start rem 0 bs).1 := by
  intro rem
  cases rem with
  | zero => intro start bs h; omega
  | succ n =>
    intro start bs _
    have hbc : (0 : Nat) ≤ matchLen source lenSource maxCopy srcPos start := Nat.zero_le _
    by_cases hcm : matchLen source lenSource maxCopy srcPos start = maxCopy
    · simp only [scanStarts]
      rw [if_pos hbc, if_pos hcm]
      exact ⟨le_refl _, by omega, rfl⟩
    · simp only [scanStarts]
      rw [if_pos hbc, if_neg hcm]
      rcases scan_result_cases source lenSource maxCopy srcPos n (start + 1)
          (matchLen source lenSource maxCopy srcPos start) start with heq | ⟨h1, h2, h3⟩
      · rw [heq]
        exact ⟨le_refl _, by omega, rfl⟩
      · exact ⟨by omega, by omega, h3⟩

end ScanLemmas2

theorem findMatch_def (source : Nat → Nat) (n i p : Nat) :
    findMatch source n i p =
      scanStarts source n (maxCopyLength i) p
        (if lookbackRange i < p then p - lookbackRange i else 0)
        (p - (if lookbackRange i < p then p - lookbackRange i else 0)) 0 0 := by
  simp [findMatch]

theorem maxCopyLength_pos (i : Nat) : 0 < maxCopyLength i := by
  unfold maxCopyLength
  exact Nat.lt_of_lt_of_le (by norm_num) (Nat.le_add_left 3 _)

theorem land_shiftLeft_eq_zero (x y k : Nat) (hx : x < 2 ^ k) :
    Nat.land x (y <<< k) = 0 := by
  apply Nat.eq_of_testBit_eq
  intro j
  show (x &&& (y <<< k)).testBit j = Nat.testBit 0 j
  rw [Nat.zero_testBit, Nat.testBit_land, Nat.testBit_shiftLeft]
  rcases Nat.lt_or_ge j k with h | h
  · have h2 : ¬ (j ≥ k) := by omega
    simp [h2]
  · have hxj : x < 2 ^ j := lt_of_lt_of_le hx (Nat.pow_le_pow_right (by omega) h)
    simp [Nat.testBit_eq_false_of_lt hxj]

/-- Claim C2 (amended): for every input, position `p` and configuration,
among the window starts achieving the maximal match length the finder
returns the largest one whenever that maximal length is below
`max_copy_length`; when the maximal length equals `max_copy_length` the
short-circuit at line 144 returns the smallest achieving start instead.
In both cases the returned start achieves the returned length. -/
theorem c2_match_finder_tiebreak (source : Nat → Nat) (n i p s : Nat)
    (hs1 : (if lookbackRange i < p then p - lookbackRange i else 0) ≤ s)
    (hs2 : s < p)
    (htie : matchLen source n (maxCopyLength i) p s = (findMatch source n i p).1) :
    ((findMatch source n i p).1 < maxCopyLength i → s ≤ (findMatch source n i p).2) ∧
    ((findMatch source n i p).1 = maxCopyLength i → (findMatch source n i p).2 ≤ s) ∧
    matchLen source n (maxCopyLength i) p (findMatch source n i p).2 =
      (findMatch source n i p).1 := by
  rw [findMatch_def] at htie ⊢
  set lbSt := (if lookbackRange i < p then p - lookbackRange i else 0) with hlb
  have hsk : s = lbSt + (s - lbSt) := by omega
  have hkrem : s - lbSt < p - lbSt := by omega
  refine ⟨?_, ?_, ?_⟩
  · intro hlt
    have := scan_tie_largest source n (maxCopyLength i) p (p - lbSt) lbSt 0 0 hlt
      (s - lbSt) hkrem (by rw [← hsk]; exact htie)
    omega
  · intro heq
    have := (scan_break_smallest source n (maxCopyLength i) p (p - lbSt) lbSt 0 0
      (maxCopyLength_pos i) heq).2 (s - lbSt) hkrem (by rw [← hsk, htie, heq])
    omega
  · exact (scan_zero_achieves source n (maxCopyLength i) p (p - lbSt) lbSt 0 (by omega)).2.2

/-- Claim C8: whenever the encoder takes the match branch (`best_len > 2`)
under configuration `i` (0 or 1), the emitted offset
`src_pos - best_start` lies in `[1, lookback_range]`, the emitted length
lies in `[3, max_copy_length]`, and in the packed 16-bit word
`offset | ((length - 3) << length_shift)` the offset bits and the
shifted length bits occupy disjoint bit positions. -/
theorem c8_match_element_bounds (source : Nat → Nat) (n i p : Nat) (hi : i < 2)
    (h : 2 < (findMatch source n i p).1) :
    1 ≤ p - (findMatch source n i p).2 ∧
    p - (findMatch source n i p).2 ≤ lookbackRange i ∧
    3 ≤ (findMatch source n i p).1 ∧
    (findMatch source n i p).1 ≤ maxCopyLength i ∧
    Nat.land (p - (findMatch source n i p).2)
      (((findMatch source n i p).1 - 3) <<< lengthShift i) = 0 := by
  rw [findMatch_def] at h ⊢
  set lbSt := (if lookbackRange i < p then p - lookbackRange i else 0) with hlb
  have hlbp : lbSt ≤ p := by rw [hlb]; split <;> omega
  have hrem : 0 < p - lbSt := by
    rcases Nat.eq_zero_or_pos (p - lbSt) with h0 | hp
    · exfalso
      rw [h0] at h
      simp [scanStarts] at h
    · exact hp
  obtain ⟨ha1, ha2, ha3⟩ := scan_zero_achieves source n (maxCopyLength i) p (p - lbSt) lbSt 0 hrem
  have hlbv : p ≤ lbSt + lookbackRange i := by
    rw [hlb]
    split <;> omega
  have hoff : p - (scanStarts source n (maxCopyLength i) p lbSt (p - lbSt) 0 0).2 ≤
      lookbackRange i := by
    omega
  refine ⟨by omega, hoff, by omega,
    scan_fst_le source n (maxCopyLength i) p (p - lbSt) lbSt 0 0 (Nat.zero_le _), ?_⟩
  apply land_shiftLeft_eq_zero
  have hi2 : i = 0 ∨ i = 1 := by omega
  rcases hi2 with rfl | rfl
  · have : lookbackRange 0 < 2 ^ lengthShift 0 := by decide
    omega
  · have : lookbackRange 1 < 2 ^ lengthShift 1 := by decide
    omega

/-- Claim C9: in the match-extend loop, every evaluated byte comparison
reads within the input: whenever the loop guard has established
`src_pos + cur_len < N` at a reached `cur_len` and `start < src_pos`,
both `start + cur_len < N` and `src_pos + cur_len < N` hold. -/
theorem c9_match_extend_reads_in_bounds (source : Nat → Nat) (n maxCopy p start c : Nat)
    (hstart : start < p) (hc : c ≤ matchLen source n maxCopy p start)
    (hread : p + c < n) :
    start + c < n ∧ p + c < n :=
  ⟨by omega, hread⟩

theorem finishTrial_srcPos (i hp bit : Nat) (st : EncSt) :
    (finishTrial i hp bit st).1.srcPos = st.srcPos := by
  unfold finishTrial
  split <;> rfl

theorem finishTrial_len (i hp bit : Nat) (st : EncSt) :
    (finishTrial i hp bit st).2 = hp + 1 ∨ (finishTrial i hp bit st).2 = st.outPos + 4 := by
  unfold finishTrial
  split
  · left; rfl
  · right; rfl

theorem runBits_fin_srcPos (source : Nat → Nat) (n i hp : Nat) :
    ∀ budget bit st st2 L,
      runBits source n i hp bit budget st = .fin st2 L → st2.srcPos = n := by
  intro budget
  induction budget with
  | zero => intro bit st st2 L h; simp [runBits] at h
  | succ b ih =>
    intro bit st st2 L h
    simp only [runBits] at h
    by_cases hsrc : st.srcPos = n
    · rw [if_pos hsrc] at h
      cases h
      rw [finishTrial_srcPos]
      exact hsrc
    · rw [if_neg hsrc] at h
      split at h
      · exact ih _ _ _ _ h
      · exact ih _ _ _ _ h

theorem runBits_fin_len (source : Nat → Nat) (n i hp : Nat) :
    ∀ budget bit st st2 L,
      runBits source n i hp bit budget st = .fin st2 L →
      L = hp + 1 ∨ st.outPos + 4 ≤ L := by
  intro budget
  induction budget with
  | zero => intro bit st st2 L h; simp [runBits] at h
  | succ b ih =>
    intro bit st st2 L h
    simp only [runBits] at h
    by_cases hsrc : st.srcPos = n
    · rw [if_pos hsrc] at h
      cases h
      rcases finishTrial_len i hp bit st with h1 | h1
      · left; exact h1
      · right; omega
    · rw [if_neg hsrc] at h
      split at h
      · rcases ih _ _ _ _ h with h1 | h1
        · left; exact h1
        · right; simp at h1; omega
      · rcases ih _ _ _ _ h with h1 | h1
        · left; exact h1
        · right; simp at h1; omega

theorem runBits_again_outPos (source : Nat → Nat) (n i hp : Nat) :
    ∀ budget bit st st2,
      runBits source n i hp bit budget st = .again st2 → st.outPos ≤ st2.outPos := by
  intro budget
  induction budget with
  | zero =>
    intro bit st st2 h
    simp only [runBits] at h
    cases h
    exact le_refl _
  | succ b ih =>
    intro bit st st2 h
    simp only [runBits] at h
    by_cases hsrc : st.srcPos = n
    · rw [if_pos hsrc] at h
      cases h
    · rw [if_neg hsrc] at h
      split at h
      · have := ih _ _ _ h
        simp at this
        omega
      · have := ih _ _ _ h
        simp at this
        omega

theorem runPackets_len (source : Nat → Nat) (n i B : Nat) :
    ∀ fuel st,
      (runPackets source n i B fuel st).2 = 0x10000 ∨
      st.outPos + 1 ≤ (runPackets source n i B fuel st).2 := by
  intro fuel
  induction fuel with
  | zero => intro st; left; rfl
  | succ f ih =>
    intro st
    by_cases hb : B ≤ st.outPos
    · left
      simp only [runPackets]
      rw [if_pos hb]
    · simp only [runPackets]
      rw [if_neg hb]
      cases hrb : runBits source n i st.outPos 0 8
          ⟨upd st.buf st.outPos 0, st.srcPos, st.outPos + 1⟩ with
      | again st2 =>
        simp only
        rcases ih st2 with h1 | h1
        · left; exact h1
        · right
          have := runBits_again_outPos source n i st.outPos 8 0 _ _ hrb
          simp at this
          omega
      | fin st2 L =>
        simp only
        rcases runBits_fin_len source n i st.outPos 8 0 _ _ _ hrb with h1 | h1
        · right; omega
        · right; simp at h1; omega

theorem runPackets_src (source : Nat → Nat) (n i B : Nat) :
    ∀ fuel st,
      (runPackets source n i B fuel st).2 ≠ 0x10000 →
      (runPackets source n i B fuel st).1.srcPos = n := by
  intro fuel
  induction fuel with
  | zero => intro st h; exact absurd rfl h
  | succ f ih =>
    intro st h
    by_cases hb : B ≤ st.outPos
    · exfalso
      apply h
      simp only [runPackets]
      rw [if_pos hb]
    · simp only [runPackets] at h ⊢
      rw [if_neg hb] at h ⊢
      cases hrb : runBits source n i st.outPos 0 8
          ⟨upd st.buf st.outPos 0, st.srcPos, st.outPos + 1⟩ with
      | again st2 =>
        rw [hrb] at h
        simp only at h ⊢
        exact ih st2 h
      | fin st2 L =>
        simp only at h ⊢
        exact runBits_fin_srcPos source n i st.outPos 8 0 _ _ _ hrb

theorem runPackets_mono (source : Nat → Nat) (n i : Nat) :
    ∀ fuel st B B2, B ≤ B2 →
      runPackets source n i B2 fuel st = runPackets source n i B fuel st ∨
      ((runPackets source n i B fuel st).2 = 0x10000 ∧
       ((runPackets source n i B2 fuel st).2 = 0x10000 ∨
        B + 1 ≤ (runPackets source n i B2 fuel st).2)) := by
  intro fuel
  induction fuel with
  | zero => intro st B B2 h; left; rfl
  | succ f ih =>
    intro st B B2 hB
    by_cases h2 : B2 ≤ st.outPos
    · left
      have h1 : B ≤ st.outPos := le_trans hB h2
      simp only [runPackets]
      rw [if_pos h1, if_pos h2]
    · by_cases h1 : B ≤ st.outPos
      · right
        constructor
        · simp only [runPackets]
          rw [if_pos h1]
        · rcases runPackets_len source n i B2 (f + 1) st with ha | ha
          · left; exact ha
          · right; omega
      · simp only [runPackets]
        rw [if_neg h1, if_neg h2]
        cases hrb : runBits source n i st.outPos 0 8
            ⟨upd st.buf st.outPos 0, st.srcPos, st.outPos + 1⟩ with
        | again st2 =>
          simp only
          exact ih st2 B B2 hB
        | fin st2 L =>
          left; rfl

theorem shiftAddendum_frame (hp : Nat) :
    ∀ nIter buf k, (∀ j, j < nIter → k ≠ hp + 3 + j) →
      shiftAddendum hp nIter buf k = buf k := by
  intro nIter
  induction nIter with
  | zero => intro buf k _; rfl
  | succ m ih =>
    intro buf k hk
    show shiftAddendum hp m (upd buf (hp + 3 + m) (buf (hp + m))) k = buf k
    rw [ih _ k (fun j hj => hk j (by omega))]
    exact upd_ne _ _ _ _ (hk m (by omega))

theorem shiftAddendum_reads (hp : Nat) :
    ∀ nIter buf j, j < nIter →
      shiftAddendum hp nIter buf (hp + 3 + j) = buf (hp + j) := by
  intro nIter
  induction nIter with
  | zero => intro buf j hj; omega
  | succ m ih =>
    intro buf j hj
    show shiftAddendum hp m (upd buf (hp + 3 + m) (buf (hp + m))) (hp + 3 + j) = buf (hp + j)
    rcases Nat.lt_or_ge j m with hcase | hcase
    · rw [ih _ j hcase]
      exact upd_ne _ _ _ _ (by omega)
    · have hjm : j = m := by omega
      subst hjm
      rw [shiftAddendum_frame hp _ _ _ (fun j' hj' => by omega)]
      exact upd_same _ _ _

theorem finishTrial_frame (i hp bit : Nat) (st : EncSt) (k : Nat)
    (hhp : hp < st.outPos) (hk : st.outPos + 4 ≤ k) :
    (finishTrial i hp bit st).1.buf k = st.buf k := by
  unfold finishTrial
  split
  · show upd (upd (upd st.buf hp (tagByte i)) 0 _) 1 _ k = st.buf k
    rw [upd_ne _ _ _ _ (by omega), upd_ne _ _ _ _ (by omega), upd_ne _ _ _ _ (by omega)]
  · show upd (upd (upd (upd (upd (upd
        (shiftAddendum hp (st.outPos - hp) (upd st.buf hp _))
        hp _) (hp+1) _) (hp+2) _) (st.outPos+3) _) 0 _) 1 _ k = st.buf k
    rw [upd_ne _ _ _ _ (by omega), upd_ne _ _ _ _ (by omega), upd_ne _ _ _ _ (by omega),
      upd_ne _ _ _ _ (by omega), upd_ne _ _ _ _ (by omega), upd_ne _ _ _ _ (by omega),
      shiftAddendum_frame hp _ _ _ (fun j hj => by omega),
      upd_ne _ _ _ _ (by omega)]

theorem runBits_writes (source : Nat → Nat) (n i hp : Nat) :
    ∀ budget bit st k, hp < st.outPos → st.outPos + 2 * budget + 4 ≤ k →
      bufOf (runBits source n i hp bit budget st) k = st.buf k := by
  intro budget
  induction budget with
  | zero => intro bit st k _ _; rfl
  | succ b ih =>
    intro bit st k hhp hk
    simp only [runBits]
    by_cases hsrc : st.srcPos = n
    · rw [if_pos hsrc]
      show (finishTrial i hp bit st).1.buf k = st.buf k
      exact finishTrial_frame i hp bit st k hhp (by omega)
    · rw [if_neg hsrc]
      split
      · show bufOf (runBits source n i hp (bit+1) b
          ⟨upd (upd (upd st.buf hp _) st.outPos _) (st.outPos+1) _,
            st.srcPos + _, st.outPos + 2⟩) k = st.buf k
        rw [ih (bit+1) _ k (by simp; omega) (by simp; omega)]
        show upd (upd (upd st.buf hp _) st.outPos _) (st.outPos+1) _ k = st.buf k
        rw [upd_ne _ _ _ _ (by omega), upd_ne _ _ _ _ (by omega), upd_ne _ _ _ _ (by omega)]
      · show bufOf (runBits source n i hp (bit+1) b
          ⟨upd st.buf st.outPos _, st.srcPos + 1, st.outPos + 1⟩) k = st.buf k
        rw [ih (bit+1) _ k (by simp; omega) (by simp; omega)]
        show upd st.buf st.outPos _ k = st.buf k
        rw [upd_ne _ _ _ _ (by omega)]

theorem runPackets_writes (source : Nat → Nat) (n i B : Nat) (hB : B ≤ 0x1000) :
    ∀ fuel st k, 0x10000 ≤ k →
      (runPackets source n i B fuel st).1.buf k = st.buf k := by
  intro fuel
  induction fuel with
  | zero => intro st k _; rfl
  | succ f ih =>
    intro st k hk
    simp only [runPackets]
    by_cases hb : B ≤ st.outPos
    · rw [if_pos hb]
    · rw [if_neg hb]
      have hout : st.outPos < 0x1000 := by omega
      cases hrb : runBits source n i st.outPos 0 8
          ⟨upd st.buf st.outPos 0, st.srcPos, st.outPos + 1⟩ with
      | again st2 =>
        simp only
        rw [ih st2 k hk]
        have hw := runBits_writes source n i st.outPos 8 0
          ⟨upd st.buf st.outPos 0, st.srcPos, st.outPos + 1⟩ k (by simp) (by simp; omega)
        rw [hrb] at hw
        show st2.buf k = st.buf k
        rw [show st2.buf = bufOf (PacketOut.again st2) from rfl, hw]
        exact upd_ne _ _ _ _ (by omega)
      | fin st2 L =>
        simp only
        have hw := runBits_writes source n i st.outPos 8 0
          ⟨upd st.buf st.outPos 0, st.srcPos, st.outPos + 1⟩ k (by simp) (by simp; omega)
        rw [hrb] at hw
        show st2.buf k = st.buf k
        rw [show st2.buf = bufOf (PacketOut.fin st2 L) from rfl, hw]
        exact upd_ne _ _ _ _ (by omega)

/-- Claim C3 (amended): when a trial ends mid-packet (`bit > 0`), the
finished frame at the addendum position holds the addendum header byte
`tag | bit`, then the 2-byte little-endian marker `out_pos + 3`, then
ONE relocated byte (the original packet header with its unused high
bits set by the mask) at `header_pos + 3`, then the element bytes of
the partial packet in order (the bytes the packet loop wrote at
`header_pos + j` for `1 <= j < out_pos - header_pos`, relocated to
`header_pos + 3 + j`), then a single trailing byte equal to the tag;
the recorded length is `out_pos + 4`.  The relocated header byte sits
between the length marker and the first element. -/
theorem c3_addendum_layout (i hp bit : Nat) (st : EncSt)
    (hbit : 0 < bit) (hh2 : 2 ≤ hp) (hhp : hp + 1 ≤ st.outPos) :
    (finishTrial i hp bit st).2 = st.outPos + 4 ∧
    (finishTrial i hp bit st).1.buf hp = Nat.lor (tagByte i) bit ∧
    (finishTrial i hp bit st).1.buf (hp + 1) = (st.outPos + 3) % 0x100 ∧
    (finishTrial i hp bit st).1.buf (hp + 2) = (st.outPos + 3) / 0x100 ∧
    (finishTrial i hp bit st).1.buf (hp + 3) =
      Nat.lor (st.buf hp) (Nat.land (0xFF <<< bit) 0xFF) ∧
    (∀ j, 1 ≤ j → j < st.outPos - hp →
      (finishTrial i hp bit st).1.buf (hp + 3 + j) = st.buf (hp + j)) ∧
    (finishTrial i hp bit st).1.buf (st.outPos + 3) = tagByte i := by
  have hb0 : ¬ (bit = 0) := by omega
  simp only [finishTrial]
  rw [if_neg hb0]
  simp only
  refine ⟨trivial, ?_, ?_, ?_, ?_, ?_, ?_⟩
  · rw [upd_ne _ _ _ _ (by omega), upd_ne _ _ _ _ (by omega), upd_ne _ _ _ _ (by omega),
      upd_ne _ _ _ _ (by omega), upd_ne _ _ _ _ (by omega), upd_same]
  · rw [upd_ne _ _ _ _ (by omega), upd_ne _ _ _ _ (by omega), upd_ne _ _ _ _ (by omega),
      upd_ne _ _ _ _ (by omega), upd_same]
  · rw [upd_ne _ _ _ _ (by omega), upd_ne _ _ _ _ (by omega), upd_ne _ _ _ _ (by omega),
      upd_same]
  · rw [upd_ne _ _ _ _ (by omega), upd_ne _ _ _ _ (by omega), upd_ne _ _ _ _ (by omega),
      upd_ne _ _ _ _ (by omega), upd_ne _ _ _ _ (by omega), upd_ne _ _ _ _ (by omega),
      show hp + 3 = hp + 3 + 0 from rfl,
      shiftAddendum_reads hp (st.outPos - hp) _ 0 (by omega)]
    rw [show hp + 0 = hp from rfl, upd_same]
  · intro j hj1 hj2
    rw [upd_ne _ _ _ _ (by omega), upd_ne _ _ _ _ (by omega), upd_ne _ _ _ _ (by omega),
      upd_ne _ _ _ _ (by omega), upd_ne _ _ _ _ (by omega), upd_ne _ _ _ _ (by omega),
      shiftAddendum_reads hp (st.outPos - hp) _ j (by omega),
      upd_ne _ _ _ _ (by omega)]
  · rw [upd_ne _ _ _ _ (by omega), upd_ne _ _ _ _ (by omega), upd_same]

theorem compress_length (source : Nat → Nat) (n : Nat) (b0 b1 : Nat → Nat) :
    (compress source n b0 b1).length = (compressRun source n b0 b1).length := by
  simp [compress]

/-- Claim C7: a trial that completes without aborting has consumed
exactly the whole input: `src_pos`, which starts at 0 and advances by
exactly 1 for every literal element and by exactly `best_len` for every
match element (and is therefore the running total of source bytes
consumed over all emitted elements), equals `len_source` in the final
state of every trial whose recorded length is not the abort sentinel. -/
theorem c7_consumption_equals_input_length (source : Nat → Nat) (n i bestSize : Nat) (b : Nat → Nat)
    (h : (runTrial source n i bestSize b).2 ≠ 0x10000) :
    (runTrial source n i bestSize b).1.srcPos = n :=
  runPackets_src source n i bestSize (n + 2) ⟨b, 0, 2⟩ h

/-- Claim C10: no write of the encoder ever lands at or beyond index
0x10000 of a trial buffer: at every index `k ≥ 0x10000` the final
buffer of trial 0 (bound 0x1000), of trial 1 under any bound
`≤ 0x1000`, and of the buffer selected by `compress`, still holds the
value the uninitialized buffer started with. -/
theorem c10_no_out_of_bounds_writes (source : Nat → Nat) (n : Nat) (b0 b1 : Nat → Nat) (k : Nat)
    (hk : 0x10000 ≤ k) :
    (runTrial source n 0 0x1000 b0).1.buf k = b0 k ∧
    (∀ bs b, bs ≤ 0x1000 → (runTrial source n 1 bs b).1.buf k = b k) ∧
    ((compressRun source n b0 b1).buf k = b0 k ∨
     (compressRun source n b0 b1).buf k = b1 k) := by
  have hw0 : (runTrial source n 0 0x1000 b0).1.buf k = b0 k :=
    runPackets_writes source n 0 0x1000 (by norm_num) (n + 2) ⟨b0, 0, 2⟩ k hk
  have hw1 : ∀ bs b, bs ≤ 0x1000 → (runTrial source n 1 bs b).1.buf k = b k :=
    fun bs b hbs => runPackets_writes source n 1 bs hbs (n + 2) ⟨b, 0, 2⟩ k hk
  refine ⟨hw0, hw1, ?_⟩
  simp only [compressRun]
  split
  · next hlt =>
    split
    · left; exact hw0
    · right; exact hw1 _ b1 (by omega)
  · next hge =>
    split
    · left; exact hw0
    · right; exact hw1 _ b1 (by omega)

/-- Claim C5: when both trials abort at the output bound (both recorded
lengths stay at the sentinel 0x10000 that `compressed_lengths` was
initialized to), `compress` selects choice 0 by the `<=` selection rule
and returns a buffer of length 0x10000 - bytes of an incompletely
populated buffer - rather than surfacing an error. -/
theorem c5_double_abort_sentinel (source : Nat → Nat) (n : Nat) (b0 b1 : Nat → Nat)
    (h0 : (runTrial source n 0 0x1000 b0).2 = 0x10000)
    (h1 : (runTrial source n 1 0x1000 b1).2 = 0x10000) :
    (compressRun source n b0 b1).length = 0x10000 ∧
    (compressRun source n b0 b1).choice = 0 ∧
    (compress source n b0 b1).length = 0x10000 := by
  have hbs : (if (runTrial source n 0 0x1000 b0).2 < 0x1000
      then (runTrial source n 0 0x1000 b0).2 else 0x1000) = 0x1000 := by
    rw [h0]
    decide
  refine ⟨?_, ?_, ?_⟩
  · simp [compressRun, hbs, h0, h1]
  · simp [compressRun, hbs, h0, h1]
  · simp [compress, compressRun, hbs, h0, h1]

/-- Claim C4: tightening the second trial bound to
`min(0x1000, L_0)` when trial 0 succeeded (the `best_size` update of
line 183) never changes the selected result: `compress` returns exactly
the same selected buffer, length, choice and bytes as the variant that
runs both trials with the fixed bound 0x1000. -/
theorem c4_bound_tightening_preserves_output (source : Nat → Nat) (n : Nat) (b0 b1 : Nat → Nat) :
    compressRun source n b0 b1 = compressRunFixedBound source n b0 b1 ∧
    compress source n b0 b1 = compressFixedBound source n b0 b1 := by
  have hmain : compressRun source n b0 b1 = compressRunFixedBound source n b0 b1 := by
    by_cases hl : (runTrial source n 0 0x1000 b0).2 < 0x1000
    · have hbs : (if (runTrial source n 0 0x1000 b0).2 < 0x1000
          then (runTrial source n 0 0x1000 b0).2 else 0x1000) =
          (runTrial source n 0 0x1000 b0).2 := if_pos hl
      simp only [compressRun, compressRunFixedBound]
      rw [hbs]
      have heq2 : runTrial source n 1 0x1000 b1 =
            runTrial source n 1 (runTrial source n 0 0x1000 b0).2 b1 ∨
          ((runTrial source n 1 (runTrial source n 0 0x1000 b0).2 b1).2 = 0x10000 ∧
           ((runTrial source n 1 0x1000 b1).2 = 0x10000 ∨
            (runTrial source n 0 0x1000 b0).2 + 1 ≤ (runTrial source n 1 0x1000 b1).2)) :=
        runPackets_mono source n 1 (n + 2) ⟨b1, 0, 2⟩
          (runTrial source n 0 0x1000 b0).2 0x1000 (by omega)
      rcases heq2 with heq | ⟨ht, hf⟩
      · rw [heq]
      · have hsel1 : (runTrial source n 0 0x1000 b0).2 ≤
            (runTrial source n 1 (runTrial source n 0 0x1000 b0).2 b1).2 := by
          rw [ht]; omega
        have hsel2 : (runTrial source n 0 0x1000 b0).2 ≤
            (runTrial source n 1 0x1000 b1).2 := by
          rcases hf with hf | hf
          · rw [hf]; omega
          · omega
        rw [if_pos hsel1, if_pos hsel2]
    · have hbs : (if (runTrial source n 0 0x1000 b0).2 < 0x1000
          then (runTrial source n 0 0x1000 b0).2 else 0x1000) = 0x1000 := if_neg hl
      simp only [compressRun, compressRunFixedBound]
      rw [hbs]
  refine ⟨hmain, ?_⟩
  simp only [compress, compressFixedBound]
  rw [hmain]

/-- Claim C2 (counterexample to the claim as stated): on the all-zero
input of length 40, configuration 0, position 2, both window starts 0
and 1 achieve the maximal length 34, yet the finder returns start 0 -
the smallest, not the largest - because the scan short-circuits at the
first start reaching `max_copy_length`. -/
theorem c2_counterexample :
    findMatch zeroSource 40 0 2 = (34, 0) ∧
    matchLen zeroSource 40 (maxCopyLength 0) 2 0 = 34 ∧
    matchLen zeroSource 40 (maxCopyLength 0) 2 1 = 34 ∧
    ¬ (1 ≤ (findMatch zeroSource 40 0 2).2) := by
  decide

/-- Claim C2 (witness): the amended tie-break theorem applied at the
all-zero input of length 40, position 2, tying start 1. -/
theorem c2_match_finder_tiebreak_witness :
    ((if lookbackRange 0 < 2 then 2 - lookbackRange 0 else 0) ≤ 1 ∧ 1 < 2 ∧
     matchLen zeroSource 40 (maxCopyLength 0) 2 1 = (findMatch zeroSource 40 0 2).1) ∧
    (((findMatch zeroSource 40 0 2).1 < maxCopyLength 0 →
        1 ≤ (findMatch zeroSource 40 0 2).2) ∧
     ((findMatch zeroSource 40 0 2).1 = maxCopyLength 0 →
        (findMatch zeroSource 40 0 2).2 ≤ 1) ∧
     matchLen zeroSource 40 (maxCopyLength 0) 2 (findMatch zeroSource 40 0 2).2 =
       (findMatch zeroSource 40 0 2).1) :=
  ⟨⟨by decide, by decide, by decide⟩,
   c2_match_finder_tiebreak zeroSource 40 0 2 1 (by decide) (by decide) (by decide)⟩

/-- Claim C3 (counterexample to the claim as stated): for the one-byte
input 0x41 the returned frame is 00 00 C1 07 00 FE 41 C0; the byte at
index 5, directly after the 2-byte length marker, is the relocated
masked header 0xFE, not the first element 0x41 of the partial packet,
so a byte does stand between the length marker and the first element. -/
theorem c3_counterexample :
    compress one41 1 zbuf zbuf = [0x00, 0x00, 0xC1, 0x07, 0x00, 0xFE, 0x41, 0xC0] ∧
    (compress one41 1 zbuf zbuf).getD 5 0 = 0xFE ∧
    (compress one41 1 zbuf zbuf).getD 5 0 ≠ 0x41 ∧
    (compress one41 1 zbuf zbuf).getD 5 0 ≠ tagByte 0 := by
  decide

/-- Claim C3 (witness): the amended addendum-layout theorem applied to
the concrete mid-packet state reached by the one-byte input 0x41 in
trial 0 (header at 2, one literal written, `out_pos = 4`, `bit = 1`). -/
theorem c3_addendum_layout_witness :
    (0 < 1 ∧ 2 ≤ 2 ∧ 2 + 1 ≤ (⟨zbuf, 1, 4⟩ : EncSt).outPos) ∧
    (finishTrial 0 2 1 ⟨zbuf, 1, 4⟩).2 = (⟨zbuf, 1, 4⟩ : EncSt).outPos + 4 ∧
    (finishTrial 0 2 1 ⟨zbuf, 1, 4⟩).1.buf 2 = Nat.lor (tagByte 0) 1 :=
  ⟨⟨by decide, by decide, by decide⟩,
   (c3_addendum_layout 0 2 1 ⟨zbuf, 1, 4⟩ (by decide) (by decide) (by decide)).1,
   (c3_addendum_layout 0 2 1 ⟨zbuf, 1, 4⟩ (by decide) (by decide) (by decide)).2.1⟩

/-- Claim C6 (counterexample to the claim as stated): the first two
bytes of `compress` on the single byte 0x41 are 00 00 (the main body
length `header_pos - 2 = 0`), not 01 00. -/
theorem c6_counterexample :
    (compress one41 1 zbuf zbuf).take 2 = [0x00, 0x00] ∧
    (compress one41 1 zbuf zbuf).take 2 ≠ [0x01, 0x00] := by
  decide

/-- Claim C6 (amended): `compress` of the single byte 0x41 returns the
8-byte frame 00 00 C1 07 00 FE 41 C0: main body length 00 00, addendum
header 0xC1 (high bits 0xC0, low 3 bits 1), the two marker bytes 07 00,
the shifted partial-packet bytes FE 41, and the trailing tag 0xC0. -/
theorem c6_single_byte_frame :
    compress one41 1 zbuf zbuf = [0x00, 0x00, 0xC1, 0x07, 0x00, 0xFE, 0x41, 0xC0] ∧
    (compress one41 1 zbuf zbuf).getD 2 0 = Nat.lor 0xC0 1 ∧
    (compress one41 1 zbuf zbuf).getD 7 0 = tagByte 0 := by
  decide

/-- Claim C7 (witness): the consumption theorem applied to trial 0 on
the empty input, which finishes cleanly with length 3. -/
theorem c7_consumption_equals_input_length_witness :
    (runTrial zeroSource 0 0 0x1000 zbuf).2 ≠ 0x10000 ∧
    (runTrial zeroSource 0 0 0x1000 zbuf).1.srcPos = 0 :=
  ⟨by decide, c7_consumption_equals_input_length zeroSource 0 0 0x1000 zbuf (by decide)⟩

/-- Claim C8 (witness): the match-element bound theorem applied at the
all-zero input of length 40, configuration 0, position 2, where the
finder returns the match (34, 0). -/
theorem c8_match_element_bounds_witness :
    ((0 : Nat) < 2 ∧ 2 < (findMatch zeroSource 40 0 2).1) ∧
    (1 ≤ 2 - (findMatch zeroSource 40 0 2).2 ∧
     2 - (findMatch zeroSource 40 0 2).2 ≤ lookbackRange 0 ∧
     3 ≤ (findMatch zeroSource 40 0 2).1 ∧
     (findMatch zeroSource 40 0 2).1 ≤ maxCopyLength 0 ∧
     Nat.land (2 - (findMatch zeroSource 40 0 2).2)
       (((findMatch zeroSource 40 0 2).1 - 3) <<< lengthShift 0) = 0) :=
  ⟨⟨by decide, by decide⟩,
   c8_match_element_bounds zeroSource 40 0 2 (by decide) (by decide)⟩

/-- Claim C9 (witness): the in-bounds theorem applied at the all-zero
input of length 40, position 2, start 1, comparison index 0. -/
theorem c9_match_extend_reads_in_bounds_witness :
    (1 < 2 ∧ 0 ≤ matchLen zeroSource 40 34 2 1 ∧ 2 + 0 < 40) ∧
    (1 + 0 < 40 ∧ 2 + 0 < 40) :=
  ⟨⟨by decide, by decide, by decide⟩,
   c9_match_extend_reads_in_bounds zeroSource 40 34 2 1 0 (by decide) (by decide) (by decide)⟩

/-- Claim C10 (witness): the no-out-of-bounds-write theorem applied to
the one-byte input 0x41 with zero-initialized buffers at the first
out-of-range index 0x10000. -/
theorem c10_no_out_of_bounds_writes_witness :
    (0x10000 ≤ 0x10000) ∧
    ((runTrial one41 1 0 0x1000 zbuf).1.buf 0x10000 = zbuf 0x10000 ∧
     (∀ bs b, bs ≤ 0x1000 → (runTrial one41 1 1 bs b).1.buf 0x10000 = b 0x10000) ∧
     ((compressRun one41 1 zbuf zbuf).buf 0x10000 = zbuf 0x10000 ∨
      (compressRun one41 1 zbuf zbuf).buf 0x10000 = zbuf 0x10000)) :=
  ⟨by decide, c10_no_out_of_bounds_writes one41 1 zbuf zbuf 0x10000 (by decide)⟩

theorem runBitsLen_spec (source : Nat → Nat) (n i hp : Nat) :
    ∀ budget bit st,
      runBitsLen source n i hp bit budget st.srcPos st.outPos =
        (match runBits source n i hp bit budget st with
         | .again st2 => .again st2.srcPos st2.outPos
         | .fin _ L => .fin L) := by
  intro budget
  induction budget with
  | zero => intro bit st; rfl
  | succ b ih =>
    intro bit st
    simp only [runBitsLen, runBits]
    by_cases hsrc : st.srcPos = n
    · rw [if_pos hsrc, if_pos hsrc]
      by_cases hb : bit = 0
      · rw [if_pos hb]
        simp only [finishTrial, if_pos hb]
      · rw [if_neg hb]
        simp only [finishTrial, if_neg hb]
    · rw [if_neg hsrc, if_neg hsrc]
      by_cases hm : 2 < (findMatch source n i st.srcPos).1
      · rw [if_pos hm, if_pos hm]
        exact ih (bit + 1) ⟨_, st.srcPos + (findMatch source n i st.srcPos).1, st.outPos + 2⟩
      · rw [if_neg hm, if_neg hm]
        exact ih (bit + 1) ⟨_, st.srcPos + 1, st.outPos + 1⟩

theorem runPacketsLen_spec (source : Nat → Nat) (n i B : Nat) :
    ∀ fuel st,
      runPacketsLen source n i B fuel st.srcPos st.outPos =
        (runPackets source n i B fuel st).2 := by
  intro fuel
  induction fuel with
  | zero => intro st; rfl
  | succ f ih =>
    intro st
    simp only [runPacketsLen, runPackets]
    by_cases hb : B ≤ st.outPos
    · rw [if_pos hb, if_pos hb]
    · rw [if_neg hb, if_neg hb]
      have hrb := runBitsLen_spec source n i st.outPos 8 0
        ⟨upd st.buf st.outPos 0, st.srcPos, st.outPos + 1⟩
      simp only at hrb
      rw [hrb]
      cases hcase : runBits source n i st.outPos 0 8
          ⟨upd st.buf st.outPos 0, st.srcPos, st.outPos + 1⟩ with
      | again st2 =>
        simp only
        exact ih st2
      | fin st2 L =>
        simp only

theorem packetStep_inr (source : Nat → Nat) (n i B : Nat) :
    ∀ k L, (packetStep source n i B)^[k] (.inr L) = .inr L := by
  intro k
  induction k with
  | zero => intro L; rfl
  | succ m ih =>
    intro L
    rw [Function.iterate_succ_apply]
    exact ih L

theorem packetStep_iterate_inl (source : Nat → Nat) (n i B : Nat) :
    ∀ k fuel s o s2 o2,
      (packetStep source n i B)^[k] (.inl (s, o)) = .inl (s2, o2) →
      k ≤ fuel →
      runPacketsLen source n i B fuel s o = runPacketsLen source n i B (fuel - k) s2 o2 := by
  intro k
  induction k with
  | zero =>
    intro fuel s o s2 o2 h _
    simp only [Function.iterate_zero, id] at h
    cases h
    rfl
  | succ m ih =>
    intro fuel s o s2 o2 h hk
    rw [Function.iterate_succ_apply] at h
    obtain ⟨f, rfl⟩ : ∃ f, fuel = f + 1 := ⟨fuel - 1, by omega⟩
    cases hstep : packetStep source n i B (.inl (s, o)) with
    | inr L =>
      rw [hstep, packetStep_inr] at h
      cases h
    | inl so1 =>
      rw [hstep] at h
      have hone : runPacketsLen source n i B (f + 1) s o =
          runPacketsLen source n i B f so1.1 so1.2 := by
        simp only [packetStep] at hstep
        by_cases hb : B ≤ o
        · rw [if_pos hb] at hstep
          cases hstep
        · rw [if_neg hb] at hstep
          simp only [runPacketsLen]
          rw [if_neg hb]
          cases hcase : runBitsLen source n i o 0 8 s (o + 1) with
          | again ss oo =>
            rw [hcase] at hstep
            simp only at hstep
            cases hstep
            simp only
          | fin L =>
            rw [hcase] at hstep
            simp only at hstep
            cases hstep
      rw [hone]
      have := ih f so1.1 so1.2 s2 o2 (by rw [← h]) (by omega)
      rw [this]
      congr 1
      omega
  
theorem packetStep_iterate_inr (source : Nat → Nat) (n i B : Nat) :
    ∀ k fuel s o L,
      (packetStep source n i B)^[k] (.inl (s, o)) = .inr L →
      k ≤ fuel →
      runPacketsLen source n i B fuel s o = L := by
  intro k
  induction k with
  | zero =>
    intro fuel s o L h _
    simp only [Function.iterate_zero, id] at h
    cases h
  | succ m ih =>
    intro fuel s o L h hk
    rw [Function.iterate_succ_apply] at h
    obtain ⟨f, rfl⟩ : ∃ f, fuel = f + 1 := ⟨fuel - 1, by omega⟩
    cases hstep : packetStep source n i B (.inl (s, o)) with
    | inr L2 =>
      rw [hstep, packetStep_inr] at h
      cases h
      simp only [packetStep] at hstep
      by_cases hb : B ≤ o
      · rw [if_pos hb] at hstep
        cases hstep
        simp only [runPacketsLen]
        rw [if_pos hb]
      · rw [if_neg hb] at hstep
        simp only [runPacketsLen]
        rw [if_neg hb]
        cases hcase : runBitsLen source n i o 0 8 s (o + 1) with
        | again ss oo =>
          rw [hcase] at hstep
          simp only at hstep
          cases hstep
        | fin L3 =>
          rw [hcase] at hstep
          simp only at hstep
          cases hstep
          simp only
    | inl so1 =>
      rw [hstep] at h
      have hone : runPacketsLen source n i B (f + 1) s o =
          runPacketsLen source n i B f so1.1 so1.2 := by
        simp only [packetStep] at hstep
        by_cases hb : B ≤ o
        · rw [if_pos hb] at hstep
          cases hstep
        · rw [if_neg hb] at hstep
          simp only [runPacketsLen]
          rw [if_neg hb]
          cases hcase : runBitsLen source n i o 0 8 s (o + 1) with
          | again ss oo =>
            rw [hcase] at hstep
            simp only at hstep
            cases hstep
            simp only
          | fin L3 =>
            rw [hcase] at hstep
            simp only at hstep
            cases hstep
      rw [hone]
      exact ih f so1.1 so1.2 L (by rw [← h]) (by omega)

set_option maxHeartbeats 40000000 in
set_option maxRecDepth 20000 in
/-- Twelve packet iterations of trial 0 on the all-zero input of
length 65533, evaluated from the state after 0 packets. -/
theorem pchunkA_0 :
    (packetStep zeroSource 65533 0 0x1000)^[12] (Sum.inl (0, 2)) =
      Sum.inl (3231, 205) := rfl

set_option maxHeartbeats 40000000 in
set_option maxRecDepth 20000 in
/-- Twelve packet iterations of trial 0 on the all-zero input of
length 65533, evaluated from the state after 12 packets. -/
theorem pchunkA_1 :
    (packetStep zeroSource 65533 0 0x1000)^[12] (Sum.inl (3231, 205)) =
      Sum.inl (6495, 409) := rfl

set_option maxHeartbeats 40000000 in
set_option maxRecDepth 20000 in
/-- Twelve packet iterations of trial 0 on the all-zero input of
length 65533, evaluated from the state after 24 packets. -/
theorem pchunkA_2 :
    (packetStep zeroSource 65533 0 0x1000)^[12] (Sum.inl (6495, 409)) =
      Sum.inl (9759, 613) := rfl

set_option maxHeartbeats 40000000 in
set_option maxRecDepth 20000 in
/-- Twelve packet iterations of trial 0 on the all-zero input of
length 65533, evaluated from the state after 36 packets. -/
theorem pchunkA_3 :
    (packetStep zeroSource 65533 0 0x1000)^[12] (Sum.inl (9759, 613)) =
      Sum.inl (13023, 817) := rfl

set_option maxHeartbeats 40000000 in
set_option maxRecDepth 20000 in
/-- Twelve packet iterations of trial 0 on the all-zero input of
length 65533, evaluated from the state after 48 packets. -/
theorem pchunkA_4 :
    (packetStep zeroSource 65533 0 0x1000)^[12] (Sum.inl (13023, 817)) =
      Sum.inl (16287, 1021) := rfl

set_option maxHeartbeats 40000000 in
set_option maxRecDepth 20000 in
/-- Twelve packet iterations of trial 0 on the all-zero input of
length 65533, evaluated from the state after 60 packets. -/
theorem pchunkA_5 :
    (packetStep zeroSource 65533 0 0x1000)^[12] (Sum.inl (16287, 1021)) =
      Sum.inl (19551, 1225) := rfl

set_option maxHeartbeats 40000000 in
set_option maxRecDepth 20000 in
/-- Twelve packet iterations of trial 0 on the all-zero input of
length 65533, evaluated from the state after 72 packets. -/
theorem pchunkA_6 :
    (packetStep zeroSource 65533 0 0x1000)^[12] (Sum.inl (19551, 1225)) =
      Sum.inl (22815, 1429) := rfl

set_option maxHeartbeats 40000000 in
set_option maxRecDepth 20000 in
/-- Twelve packet iterations of trial 0 on the all-zero input of
length 65533, evaluated from the state after 84 packets. -/
theorem pchunkA_7 :
    (packetStep zeroSource 65533 0 0x1000)^[12] (Sum.inl (22815, 1429)) =
      Sum.inl (26079, 1633) := rfl

set_option maxHeartbeats 40000000 in
set_option maxRecDepth 20000 in
/-- Twelve packet iterations of trial 0 on the all-zero input of
length 65533, evaluated from the state after 96 packets. -/
theorem pchunkA_8 :
    (packetStep zeroSource 65533 0 0x1000)^[12] (Sum.inl (26079, 1633)) =
      Sum.inl (29343, 1837) := rfl

set_option maxHeartbeats 40000000 in
set_option maxRecDepth 20000 in
/-- Twelve packet iterations of trial 0 on the all-zero input of
length 65533, evaluated from the state after 108 packets. -/
theorem pchunkA_9 :
    (packetStep zeroSource 65533 0 0x1000)^[12] (Sum.inl (29343, 1837)) =
      Sum.inl (32607, 2041) := rfl

set_option maxHeartbeats 40000000 in
set_option maxRecDepth 20000 in
/-- Twelve packet iterations of trial 0 on the all-zero input of
length 65533, evaluated from the state after 120 packets. -/
theorem pchunkA_10 :
    (packetStep zeroSource 65533 0 0x1000)^[12] (Sum.inl (32607, 2041)) =
      Sum.inl (35871, 2245) := rfl

set_option maxHeartbeats 40000000 in
set_option maxRecDepth 20000 in
/-- Twelve packet iterations of trial 0 on the all-zero input of
length 65533, evaluated from the state after 132 packets. -/
theorem pchunkA_11 :
    (packetStep zeroSource 65533 0 0x1000)^[12] (Sum.inl (35871, 2245)) =
      Sum.inl (39135, 2449) := rfl

set_option maxHeartbeats 40000000 in
set_option maxRecDepth 20000 in
/-- Twelve packet iterations of trial 0 on the all-zero input of
length 65533, evaluated from the state after 144 packets. -/
theorem pchunkA_12 :
    (packetStep zeroSource 65533 0 0x1000)^[12] (Sum.inl (39135, 2449)) =
      Sum.inl (42399, 2653) := rfl

set_option maxHeartbeats 40000000 in
set_option maxRecDepth 20000 in
/-- Twelve packet iterations of trial 0 on the all-zero input of
length 65533, evaluated from the state after 156 packets. -/
theorem pchunkA_13 :
    (packetStep zeroSource 65533 0 0x1000)^[12] (Sum.inl (42399, 2653)) =
      Sum.inl (45663, 2857) := rfl

set_option maxHeartbeats 40000000 in
set_option maxRecDepth 20000 in
/-- Twelve packet iterations of trial 0 on the all-zero input of
length 65533, evaluated from the state after 168 packets. -/
theorem pchunkA_14 :
    (packetStep zeroSource 65533 0 0x1000)^[12] (Sum.inl (45663, 2857)) =
      Sum.inl (48927, 3061) := rfl

set_option maxHeartbeats 40000000 in
set_option maxRecDepth 20000 in
/-- Twelve packet iterations of trial 0 on the all-zero input of
length 65533, evaluated from the state after 180 packets. -/
theorem pchunkA_15 :
    (packetStep zeroSource 65533 0 0x1000)^[12] (Sum.inl (48927, 3061)) =
      Sum.inl (52191, 3265) := rfl

set_option maxHeartbeats 40000000 in
set_option maxRecDepth 20000 in
/-- Twelve packet iterations of trial 0 on the all-zero input of
length 65533, evaluated from the state after 192 packets. -/
theorem pchunkA_16 :
    (packetStep zeroSource 65533 0 0x1000)^[12] (Sum.inl (52191, 3265)) =
      Sum.inl (55455, 3469) := rfl

set_option maxHeartbeats 40000000 in
set_option maxRecDepth 20000 in
/-- Twelve packet iterations of trial 0 on the all-zero input of
length 65533, evaluated from the state after 204 packets. -/
theorem pchunkA_17 :
    (packetStep zeroSource 65533 0 0x1000)^[12] (Sum.inl (55455, 3469)) =
      Sum.inl (58719, 3673) := rfl

set_option maxHeartbeats 40000000 in
set_option maxRecDepth 20000 in
/-- Twelve packet iterations of trial 0 on the all-zero input of
length 65533, evaluated from the state after 216 packets. -/
theorem pchunkA_18 :
    (packetStep zeroSource 65533 0 0x1000)^[12] (Sum.inl (58719, 3673)) =
      Sum.inl (61983, 3877) := rfl

set_option maxHeartbeats 40000000 in
set_option maxRecDepth 20000 in
/-- Twelve packet iterations of trial 0 on the all-zero input of
length 65533, evaluated from the state after 228 packets. -/
theorem pchunkA_19 :
    (packetStep zeroSource 65533 0 0x1000)^[12] (Sum.inl (61983, 3877)) =
      Sum.inl (65247, 4081) := rfl

set_option maxHeartbeats 40000000 in
set_option maxRecDepth 20000 in
/-- The final packet of trial 0 on the all-zero input and the abort
check that leaves the recorded length at the sentinel. -/
theorem pchunkA_fin :
    (packetStep zeroSource 65533 0 0x1000)^[2] (Sum.inl (65247, 4081)) =
      Sum.inr 0x10000 := rfl

set_option maxHeartbeats 40000000 in
set_option maxRecDepth 20000 in
/-- Twelve packet iterations of trial 1 on the all-zero input of
length 65533, evaluated from the state after 0 packets. -/
theorem pchunkB_0 :
    (packetStep zeroSource 65533 1 0x1000)^[12] (Sum.inl (0, 2)) =
      Sum.inl (1711, 205) := rfl

set_option maxHeartbeats 40000000 in
set_option maxRecDepth 20000 in
/-- Twelve packet iterations of trial 1 on the all-zero input of
length 65533, evaluated from the state after 12 packets. -/
theorem pchunkB_1 :
    (packetStep zeroSource 65533 1 0x1000)^[12] (Sum.inl (1711, 205)) =
      Sum.inl (3439, 409) := rfl

set_option maxHeartbeats 40000000 in
set_option maxRecDepth 20000 in
/-- Twelve packet iterations of trial 1 on the all-zero input of
length 65533, evaluated from the state after 24 packets. -/
theorem pchunkB_2 :
    (packetStep zeroSource 65533 1 0x1000)^[12] (Sum.inl (3439, 409)) =
      Sum.inl (5167, 613) := rfl

set_option maxHeartbeats 40000000 in
set_option maxRecDepth 20000 in
/-- Twelve packet iterations of trial 1 on the all-zero input of
length 65533, evaluated from the state after 36 packets. -/
theorem pchunkB_3 :
    (packetStep zeroSource 65533 1 0x1000)^[12] (Sum.inl (5167, 613)) =
      Sum.inl (6895, 817) := rfl

set_option maxHeartbeats 40000000 in
set_option maxRecDepth 20000 in
/-- Twelve packet iterations of trial 1 on the all-zero input of
length 65533, evaluated from the state after 48 packets. -/
theorem pchunkB_4 :
    (packetStep zeroSource 65533 1 0x1000)^[12] (Sum.inl (6895, 817)) =
      Sum.inl (8623, 1021) := rfl

set_option maxHeartbeats 40000000 in
set_option maxRecDepth 20000 in
/-- Twelve packet iterations of trial 1 on the all-zero input of
length 65533, evaluated from the state after 60 packets. -/
theorem pchunkB_5 :
    (packetStep zeroSource 65533 1 0x1000)^[12] (Sum.inl (8623, 1021)) =
      Sum.inl (10351, 1225) := rfl

set_option maxHeartbeats 40000000 in
set_option maxRecDepth 20000 in
/-- Twelve packet iterations of trial 1 on the all-zero input of
length 65533, evaluated from the state after 72 packets. -/
theorem pchunkB_6 :
    (packetStep zeroSource 65533 1 0x1000)^[12] (Sum.inl (10351, 1225)) =
      Sum.inl (12079, 1429) := rfl

set_option maxHeartbeats 40000000 in
set_option maxRecDepth 20000 in
/-- Twelve packet iterations of trial 1 on the all-zero input of
length 65533, evaluated from the state after 84 packets. -/
theorem pchunkB_7 :
    (packetStep zeroSource 65533 1 0x1000)^[12] (Sum.inl (12079, 1429)) =
      Sum.inl (13807, 1633) := rfl

set_option maxHeartbeats 40000000 in
set_option maxRecDepth 20000 in
/-- Twelve packet iterations of trial 1 on the all-zero input of
length 65533, evaluated from the state after 96 packets. -/
theorem pchunkB_8 :
    (packetStep zeroSource 65533 1 0x1000)^[12] (Sum.inl (13807, 1633)) =
      Sum.inl (15535, 1837) := rfl

set_option maxHeartbeats 40000000 in
set_option maxRecDepth 20000 in
/-- Twelve packet iterations of trial 1 on the all-zero input of
length 65533, evaluated from the state after 108 packets. -/
theorem pchunkB_9 :
    (packetStep zeroSource 65533 1 0x1000)^[12] (Sum.inl (15535, 1837)) =
      Sum.inl (17263, 2041) := rfl

set_option maxHeartbeats 40000000 in
set_option maxRecDepth 20000 in
/-- Twelve packet iterations of trial 1 on the all-zero input of
length 65533, evaluated from the state after 120 packets. -/
theorem pchunkB_10 :
    (packetStep zeroSource 65533 1 0x1000)^[12] (Sum.inl (17263, 2041)) =
      Sum.inl (18991, 2245) := rfl

set_option maxHeartbeats 40000000 in
set_option maxRecDepth 20000 in
/-- Twelve packet iterations of trial 1 on the all-zero input of
length 65533, evaluated from the state after 132 packets. -/
theorem pchunkB_11 :
    (packetStep zeroSource 65533 1 0x1000)^[12] (Sum.inl (18991, 2245)) =
      Sum.inl (20719, 2449) := rfl

set_option maxHeartbeats 40000000 in
set_option maxRecDepth 20000 in
/-- Twelve packet iterations of trial 1 on the all-zero input of
length 65533, evaluated from the state after 144 packets. -/
theorem pchunkB_12 :
    (packetStep zeroSource 65533 1 0x1000)^[12] (Sum.inl (20719, 2449)) =
      Sum.inl (22447, 2653) := rfl

set_option maxHeartbeats 40000000 in
set_option maxRecDepth 20000 in
/-- Twelve packet iterations of trial 1 on the all-zero input of
length 65533, evaluated from the state after 156 packets. -/
theorem pchunkB_13 :
    (packetStep zeroSource 65533 1 0x1000)^[12] (Sum.inl (22447, 2653)) =
      Sum.inl (24175, 2857) := rfl

set_option maxHeartbeats 40000000 in
set_option maxRecDepth 20000 in
/-- Twelve packet iterations of trial 1 on the all-zero input of
length 65533, evaluated from the state after 168 packets. -/
theorem pchunkB_14 :
    (packetStep zeroSource 65533 1 0x1000)^[12] (Sum.inl (24175, 2857)) =
      Sum.inl (25903, 3061) := rfl

set_option maxHeartbeats 40000000 in
set_option maxRecDepth 20000 in
/-- Twelve packet iterations of trial 1 on the all-zero input of
length 65533, evaluated from the state after 180 packets. -/
theorem pchunkB_15 :
    (packetStep zeroSource 65533 1 0x1000)^[12] (Sum.inl (25903, 3061)) =
      Sum.inl (27631, 3265) := rfl

set_option maxHeartbeats 40000000 in
set_option maxRecDepth 20000 in
/-- Twelve packet iterations of trial 1 on the all-zero input of
length 65533, evaluated from the state after 192 packets. -/
theorem pchunkB_16 :
    (packetStep zeroSource 65533 1 0x1000)^[12] (Sum.inl (27631, 3265)) =
      Sum.inl (29359, 3469) := rfl

set_option maxHeartbeats 40000000 in
set_option maxRecDepth 20000 in
/-- Twelve packet iterations of trial 1 on the all-zero input of
length 65533, evaluated from the state after 204 packets. -/
theorem pchunkB_17 :
    (packetStep zeroSource 65533 1 0x1000)^[12] (Sum.inl (29359, 3469)) =
      Sum.inl (31087, 3673) := rfl

set_option maxHeartbeats 40000000 in
set_option maxRecDepth 20000 in
/-- Twelve packet iterations of trial 1 on the all-zero input of
length 65533, evaluated from the state after 216 packets. -/
theorem pchunkB_18 :
    (packetStep zeroSource 65533 1 0x1000)^[12] (Sum.inl (31087, 3673)) =
      Sum.inl (32815, 3877) := rfl

set_option maxHeartbeats 40000000 in
set_option maxRecDepth 20000 in
/-- Twelve packet iterations of trial 1 on the all-zero input of
length 65533, evaluated from the state after 228 packets. -/
theorem pchunkB_19 :
    (packetStep zeroSource 65533 1 0x1000)^[12] (Sum.inl (32815, 3877)) =
      Sum.inl (34543, 4081) := rfl

set_option maxHeartbeats 40000000 in
set_option maxRecDepth 20000 in
/-- The final packet of trial 1 on the all-zero input and the abort
check that leaves the recorded length at the sentinel. -/
theorem pchunkB_fin :
    (packetStep zeroSource 65533 1 0x1000)^[2] (Sum.inl (34543, 4081)) =
      Sum.inr 0x10000 := rfl

/-- Trial 0 on the all-zero input of length 65533 aborts at the
output bound: its recorded length stays at the sentinel 0x10000. -/
theorem trial0_abort :
    (runTrial zeroSource 65533 0 0x1000 zbuf).2 = 0x10000 :=
  Eq.trans
    (Eq.symm (runPacketsLen_spec zeroSource 65533 0 0x1000 65535 ⟨zbuf, 0, 2⟩))
    (Eq.trans (packetStep_iterate_inl zeroSource 65533 0 0x1000 12 65535 0 2 3231 205 pchunkA_0 (by decide))
    (Eq.trans (packetStep_iterate_inl zeroSource 65533 0 0x1000 12 65523 3231 205 6495 409 pchunkA_1 (by decide))
    (Eq.trans (packetStep_iterate_inl zeroSource 65533 0 0x1000 12 65511 6495 409 9759 613 pchunkA_2 (by decide))
    (Eq.trans (packetStep_iterate_inl zeroSource 65533 0 0x1000 12 65499 9759 613 13023 817 pchunkA_3 (by decide))
    (Eq.trans (packetStep_iterate_inl zeroSource 65533 0 0x1000 12 65487 13023 817 16287 1021 pchunkA_4 (by decide))
    (Eq.trans (packetStep_iterate_inl zeroSource 65533 0 0x1000 12 65475 16287 1021 19551 1225 pchunkA_5 (by decide))
    (Eq.trans (packetStep_iterate_inl zeroSource 65533 0 0x1000 12 65463 19551 1225 22815 1429 pchunkA_6 (by decide))
    (Eq.trans (packetStep_iterate_inl zeroSource 65533 0 0x1000 12 65451 22815 1429 26079 1633 pchunkA_7 (by decide))
    (Eq.trans (packetStep_iterate_inl zeroSource 65533 0 0x1000 12 65439 26079 1633 29343 1837 pchunkA_8 (by decide))
    (Eq.trans (packetStep_iterate_inl zeroSource 65533 0 0x1000 12 65427 29343 1837 32607 2041 pchunkA_9 (by decide))
    (Eq.trans (packetStep_iterate_inl zeroSource 65533 0 0x1000 12 65415 32607 2041 35871 2245 pchunkA_10 (by decide))
    (Eq.trans (packetStep_iterate_inl zeroSource 65533 0 0x1000 12 65403 35871 2245 39135 2449 pchunkA_11 (by decide))
    (Eq.trans (packetStep_iterate_inl zeroSource 65533 0 0x1000 12 65391 39135 2449 42399 2653 pchunkA_12 (by decide))
    (Eq.trans (packetStep_iterate_inl zeroSource 65533 0 0x1000 12 65379 42399 2653 45663 2857 pchunkA_13 (by decide))
    (Eq.trans (packetStep_iterate_inl zeroSource 65533 0 0x1000 12 65367 45663 2857 48927 3061 pchunkA_14 (by decide))
    (Eq.trans (packetStep_iterate_inl zeroSource 65533 0 0x1000 12 65355 48927 3061 52191 3265 pchunkA_15 (by decide))
    (Eq.trans (packetStep_iterate_inl zeroSource 65533 0 0x1000 12 65343 52191 3265 55455 3469 pchunkA_16 (by decide))
    (Eq.trans (packetStep_iterate_inl zeroSource 65533 0 0x1000 12 65331 55455 3469 58719 3673 pchunkA_17 (by decide))
    (Eq.trans (packetStep_iterate_inl zeroSource 65533 0 0x1000 12 65319 58719 3673 61983 3877 pchunkA_18 (by decide))
    (Eq.trans (packetStep_iterate_inl zeroSource 65533 0 0x1000 12 65307 61983 3877 65247 4081 pchunkA_19 (by decide))
    ((packetStep_iterate_inr zeroSource 65533 0 0x1000 2 65295 65247 4081 0x10000 pchunkA_fin (by decide)))))))))))))))))))))))

/-- Trial 1 on the all-zero input of length 65533 aborts at the
output bound: its recorded length stays at the sentinel 0x10000. -/
theorem trial1_abort :
    (runTrial zeroSource 65533 1 0x1000 zbuf).2 = 0x10000 :=
  Eq.trans
    (Eq.symm (runPacketsLen_spec zeroSource 65533 1 0x1000 65535 ⟨zbuf, 0, 2⟩))
    (Eq.trans (packetStep_iterate_inl zeroSource 65533 1 0x1000 12 65535 0 2 1711 205 pchunkB_0 (by decide))
    (Eq.trans (packetStep_iterate_inl zeroSource 65533 1 0x1000 12 65523 1711 205 3439 409 pchunkB_1 (by decide))
    (Eq.trans (packetStep_iterate_inl zeroSource 65533 1 0x1000 12 65511 3439 409 5167 613 pchunkB_2 (by decide))
    (Eq.trans (packetStep_iterate_inl zeroSource 65533 1 0x1000 12 65499 5167 613 6895 817 pchunkB_3 (by decide))
    (Eq.trans (packetStep_iterate_inl zeroSource 65533 1 0x1000 12 65487 6895 817 8623 1021 pchunkB_4 (by decide))
    (Eq.trans (packetStep_iterate_inl zeroSource 65533 1 0x1000 12 65475 8623 1021 10351 1225 pchunkB_5 (by decide))
    (Eq.trans (packetStep_iterate_inl zeroSource 65533 1 0x1000 12 65463 10351 1225 12079 1429 pchunkB_6 (by decide))
    (Eq.trans (packetStep_iterate_inl zeroSource 65533 1 0x1000 12 65451 12079 1429 13807 1633 pchunkB_7 (by decide))
    (Eq.trans (packetStep_iterate_inl zeroSource 65533 1 0x1000 12 65439 13807 1633 15535 1837 pchunkB_8 (by decide))
    (Eq.trans (packetStep_iterate_inl zeroSource 65533 1 0x1000 12 65427 15535 1837 17263 2041 pchunkB_9 (by decide))
    (Eq.trans (packetStep_iterate_inl zeroSource 65533 1 0x1000 12 65415 17263 2041 18991 2245 pchunkB_10 (by decide))
    (Eq.trans (packetStep_iterate_inl zeroSource 65533 1 0x1000 12 65403 18991 2245 20719 2449 pchunkB_11 (by decide))
    (Eq.trans (packetStep_iterate_inl zeroSource 65533 1 0x1000 12 65391 20719 2449 22447 2653 pchunkB_12 (by decide))
    (Eq.trans (packetStep_iterate_inl zeroSource 65533 1 0x1000 12 65379 22447 2653 24175 2857 pchunkB_13 (by decide))
    (Eq.trans (packetStep_iterate_inl zeroSource 65533 1 0x1000 12 65367 24175 2857 25903 3061 pchunkB_14 (by decide))
    (Eq.trans (packetStep_iterate_inl zeroSource 65533 1 0x1000 12 65355 25903 3061 27631 3265 pchunkB_15 (by decide))
    (Eq.trans (packetStep_iterate_inl zeroSource 65533 1 0x1000 12 65343 27631 3265 29359 3469 pchunkB_16 (by decide))
    (Eq.trans (packetStep_iterate_inl zeroSource 65533 1 0x1000 12 65331 29359 3469 31087 3673 pchunkB_17 (by decide))
    (Eq.trans (packetStep_iterate_inl zeroSource 65533 1 0x1000 12 65319 31087 3673 32815 3877 pchunkB_18 (by decide))
    (Eq.trans (packetStep_iterate_inl zeroSource 65533 1 0x1000 12 65307 32815 3877 34543 4081 pchunkB_19 (by decide))
    ((packetStep_iterate_inr zeroSource 65533 1 0x1000 2 65295 34543 4081 0x10000 pchunkB_fin (by decide)))))))))))))))))))))))


/-- Claim C1 (the code violates the claimed bound): on the all-zero
input of length 65533 - an input the engine accepts, its length fits
the 2-byte main body length field - both trials abort at the 0x1000
bound, and `compress` returns a frame of 0x10000 bytes with no error:
the returned length is not at most 0x1000 and no
InternalCapacityExceeded error exists anywhere in the code. -/
theorem c1_size_bound_violated_on_double_abort :
    (compress zeroSource 65533 zbuf zbuf).length = 0x10000 ∧
    ¬ (compress zeroSource 65533 zbuf zbuf).length ≤ 0x1000 := by
  have hbs : (if (runTrial zeroSource 65533 0 0x1000 zbuf).2 < 0x1000
      then (runTrial zeroSource 65533 0 0x1000 zbuf).2 else 0x1000) = 0x1000 := by
    rw [trial0_abort]
    decide
  have h : (compressRun zeroSource 65533 zbuf zbuf).length = 0x10000 := by
    simp [compressRun, hbs, trial0_abort, trial1_abort]
  constructor
  · rw [compress_length, h]
  · rw [compress_length, h]
    decide

/-- Claim C5 (witness): on the all-zero input of length 65533 both
trials abort at the 0x1000 bound, so the sentinel theorem applies. -/
theorem c5_double_abort_sentinel_witness :
    ((runTrial zeroSource 65533 0 0x1000 zbuf).2 = 0x10000 ∧
     (runTrial zeroSource 65533 1 0x1000 zbuf).2 = 0x10000) ∧
    ((compressRun zeroSource 65533 zbuf zbuf).length = 0x10000 ∧
     (compressRun zeroSource 65533 zbuf zbuf).choice = 0 ∧
     (compress zeroSource 65533 zbuf zbuf).length = 0x10000) :=
  ⟨⟨trial0_abort, trial1_abort⟩,
   c5_double_abort_sentinel zeroSource 65533 zbuf zbuf trial0_abort trial1_abort⟩
